import Mathlib

/-!
Verification of the RobotMap-Studio occupancy-grid generator
(src/OccupancyGridGenerator.js).

Shallow embedding conventions:
* world coordinates (JS floating-point numbers used as real quantities)
  are modelled by real numbers;
* grid indices (results of Math.floor / Math.ceil) are integers;
* the flat Uint8Array grid buffer is modelled as a total function from
  flat index to cell value, initialised to the fill value 254;
* encoder outputs (Uint8Array byte buffers) are lists of naturals;
* JS template-string interpolation of numbers into text is modelled by
  String concatenation; where a float is interpolated (the YAML encoder)
  the rendered text is abstracted as an already-rendered String argument.
-/

/-- Map metadata as supplied by the editor (mapInfo in the source). -/
structure MapInfo where
  name : String
  width : ℝ
  height : ℝ
  resolution : ℝ
  origin : ℝ × ℝ

/-- The tagged union of shapes dispatched on by isPointInShape and the
bounding-box computation.  The rectangle rotation field is optional,
mirroring the source expression (shape.rotation || 0). -/
inductive Shape where
  | circle (center : ℝ × ℝ) (radius : ℝ)
  | rectangle (center : ℝ × ℝ) (width height : ℝ) (rotation : Option ℝ)
  | polygon (vertices : List (ℝ × ℝ))
  | triangle (vertices : List (ℝ × ℝ))

/-- A map object; only the type string and the shape are consulted by the
rasterizer, the remaining fields (id, name, properties, pose, goal) are
never read by it. -/
structure MapObject where
  type : String
  shape : Shape

/-- One edge test of the even-odd ray-casting loop in isPointInShape:
the Y-span guard (yi greater than py differs from yj greater than py)
conjoined with the strict ray-crossing test on x. -/
noncomputable def edgeCross (p vi vj : ℝ × ℝ) : Bool :=
  (decide (vi.2 > p.2) != decide (vj.2 > p.2)) &&
    decide (p.1 < (vj.1 - vi.1) * (p.2 - vi.2) / (vj.2 - vi.2) + vi.1)

/-- The even-odd point-in-polygon loop of isPointInShape: iterate i over
the vertex indices with j the cyclically previous index, toggling the
inside flag on each crossing. -/
noncomputable def insideEvenOdd (p : ℝ × ℝ) (vs : List (ℝ × ℝ)) : Bool :=
  (List.range vs.length).foldl
    (fun inside i =>
      if edgeCross p (vs.getD i (0, 0))
          (vs.getD ((i + vs.length - 1) % vs.length) (0, 0)) then
        !inside
      else inside)
    false

/-- Containment predicate isPointInShape of the source. -/
noncomputable def isPointInShape (p : ℝ × ℝ) (s : Shape) : Bool :=
  match s with
  | .circle center radius =>
      decide (Real.sqrt ((p.1 - center.1) * (p.1 - center.1) +
        (p.2 - center.2) * (p.2 - center.2)) ≤ radius)
  | .rectangle center w h rotation =>
      let angle := -(rotation.getD 0)
      let c := Real.cos angle
      let s := Real.sin angle
      let dx := p.1 - center.1
      let dy := p.2 - center.2
      let rotX := dx * c - dy * s
      let rotY := dx * s + dy * c
      decide (|rotX| ≤ w / 2) && decide (|rotY| ≤ h / 2)
  | .polygon vs => insideEvenOdd p vs
  | .triangle vs => insideEvenOdd p vs

/-- Axis-aligned bounding box (minX, maxX, minY, maxY) computed per shape
by the rasterizer before iterating.  For a polygon or triangle with an
empty vertex list the JS Math.min of no arguments yields Infinity and the
subsequent iteration range is empty; this degenerate case is modelled by
none (the iteration is skipped). -/
noncomputable def shapeBounds : Shape → Option (ℝ × ℝ × ℝ × ℝ)
  | .circle center radius =>
      some (center.1 - radius, center.1 + radius,
            center.2 - radius, center.2 + radius)
  | .rectangle center w h rotation =>
      let angle := -(rotation.getD 0)
      let c := Real.cos angle
      let s := Real.sin angle
      let t1 : ℝ × ℝ := ((-w/2) * c - (-h/2) * s, (-w/2) * s + (-h/2) * c)
      let t2 : ℝ × ℝ := ((w/2) * c - (-h/2) * s, (w/2) * s + (-h/2) * c)
      let t3 : ℝ × ℝ := ((w/2) * c - (h/2) * s, (w/2) * s + (h/2) * c)
      let t4 : ℝ × ℝ := ((-w/2) * c - (h/2) * s, (-w/2) * s + (h/2) * c)
      some (center.1 + min (min (min t1.1 t2.1) t3.1) t4.1,
            center.1 + max (max (max t1.1 t2.1) t3.1) t4.1,
            center.2 + min (min (min t1.2 t2.2) t3.2) t4.2,
            center.2 + max (max (max t1.2 t2.2) t3.2) t4.2)
  | .polygon vs =>
      match vs with
      | [] => none
      | v :: rest =>
          some (rest.foldl (fun a u => min a u.1) v.1,
                rest.foldl (fun a u => max a u.1) v.1,
                rest.foldl (fun a u => min a u.2) v.2,
                rest.foldl (fun a u => max a u.2) v.2)
  | .triangle vs =>
      match vs with
      | [] => none
      | v :: rest =>
          some (rest.foldl (fun a u => min a u.1) v.1,
                rest.foldl (fun a u => max a u.1) v.1,
                rest.foldl (fun a u => min a u.2) v.2,
                rest.foldl (fun a u => max a u.2) v.2)

/-- Validity of a grid cell index pair, the guard of setGridCell. -/
abbrev validCell (gw gh gx gy : ℤ) : Prop :=
  0 ≤ gx ∧ gx < gw ∧ 0 ≤ gy ∧ gy < gh

/-- setGridCell of the source: write value v at row-major flat index
gy * gridWidth + gx, silently doing nothing when the cell index is out
of the grid bounds. -/
def setGridCell (gw gh : ℤ) (g : ℕ → ℕ) (gx gy : ℤ) (v : ℕ) : ℕ → ℕ :=
  if validCell gw gh gx gy then
    fun i => if i = (gy * gw + gx).toNat then v else g i
  else g

/-- The half-open JS loop for (x = a; x <= b; x++) as the list of visited
integers (empty when b < a). -/
def intRange (a b : ℤ) : List ℤ :=
  (List.range (b + 1 - a).toNat).map (fun (k : ℕ) => a + (k : ℤ))

/-- worldToGrid of the source: floor of the offset world coordinate
divided by the resolution, per axis. -/
noncomputable def worldToGrid (mi : MapInfo) (wx wy : ℝ) : ℤ × ℤ :=
  (⌊(wx - mi.origin.1) / mi.resolution⌋, ⌊(wy - mi.origin.2) / mi.resolution⌋)

/-- World coordinate of the center of grid cell (gx, gy). -/
noncomputable def cellCenter (mi : MapInfo) (gx gy : ℤ) : ℝ × ℝ :=
  (mi.origin.1 + ((gx : ℝ) + 0.5) * mi.resolution,
   mi.origin.2 + ((gy : ℝ) + 0.5) * mi.resolution)

/-- The object types skipped by the rasterizer. -/
abbrev excludedType (t : String) : Prop := t = "robot" ∨ t = "landmark"

/-- Innermost body of the rasterization loop: test one cell center
against the shape and mark the cell occupied on a hit. -/
noncomputable def rasterCellStep (mi : MapInfo) (gw gh : ℤ) (s : Shape)
    (gy : ℤ) (g : ℕ → ℕ) (gx : ℤ) : ℕ → ℕ :=
  if isPointInShape (cellCenter mi gx gy) s then setGridCell gw gh g gx gy 0
  else g

/-- One row of the rasterization loop: fold the cell test over the
bounding-box x index range. -/
noncomputable def rasterRowStep (mi : MapInfo) (gw gh : ℤ) (s : Shape)
    (lox hix : ℤ) (g : ℕ → ℕ) (gy : ℤ) : ℕ → ℕ :=
  (intRange lox hix).foldl (rasterCellStep mi gw gh s gy) g

/-- Rasterization of one object onto the grid: skip robots and landmarks,
compute the shape bounding box, convert it to a grid index range and test
each cell center in that range, marking hits occupied (0). -/
noncomputable def rasterizeObject (mi : MapInfo) (gw gh : ℤ) (g : ℕ → ℕ)
    (obj : MapObject) : ℕ → ℕ :=
  if excludedType obj.type then g
  else
    match shapeBounds obj.shape with
    | none => g
    | some (mnX, mxX, mnY, mxY) =>
        let lo := worldToGrid mi mnX mnY
        let hi := worldToGrid mi mxX mxY
        (intRange lo.2 hi.2).foldl
          (rasterRowStep mi gw gh obj.shape lo.1 hi.1) g

/-- Grid width in cells, Math.ceil(width / resolution). -/
noncomputable def gridWidthOf (mi : MapInfo) : ℤ := ⌈mi.width / mi.resolution⌉

/-- Grid height in cells, Math.ceil(height / resolution). -/
noncomputable def gridHeightOf (mi : MapInfo) : ℤ := ⌈mi.height / mi.resolution⌉

/-- The grid produced by generateOccupancyGrid: start from an all-254
buffer and fold the per-object rasterization over the object list. -/
noncomputable def generateGrid (mi : MapInfo) (objects : List MapObject) : ℕ → ℕ :=
  objects.foldl
    (fun g obj => rasterizeObject mi (gridWidthOf mi) (gridHeightOf mi) g obj)
    (fun _ => 254)

/-- Reference cell value of the rasterizer, written from the words of the
specification: a cell is 0 exactly when some object whose type is neither
robot nor landmark has a shape containing the cell-center world point,
254 otherwise.  No bounding box is involved. -/
noncomputable def referenceCellValue (mi : MapInfo) (objects : List MapObject)
    (gx gy : ℤ) : ℕ :=
  @ite ℕ
    (∃ o ∈ objects, ¬ excludedType o.type ∧
      isPointInShape (cellCenter mi gx gy) o.shape = true)
    (Classical.propDecidable _) 0 254

/-- Byte sequence of an ASCII string (TextEncoder().encode on the ASCII
text used by the generator). -/
def strBytes (s : String) : List ℕ := s.data.map Char.toNat

/-- The PGM header text of generatePGM. -/
def pgmHeader (w h : ℕ) : String :=
  "P5\n" ++ toString w ++ " " ++ toString h ++ "\n255\n"

/-- Innermost body of the generatePGM copy loop: copy the cell at source
row-major index row * w + col to the vertically flipped destination index
(h - 1 - row) * w + col. -/
def pgmColStep (grid : ℕ → ℕ) (w h row : ℕ) (acc : ℕ → ℕ) (col : ℕ) : ℕ → ℕ :=
  fun i => if i = (h - 1 - row) * w + col then grid (row * w + col) else acc i

/-- One source row of the generatePGM copy loop. -/
def pgmRowStep (grid : ℕ → ℕ) (w h : ℕ) (acc : ℕ → ℕ) (row : ℕ) : ℕ → ℕ :=
  (List.range w).foldl (pgmColStep grid w h row) acc

/-- The vertical-flip scatter loop of generatePGM: for every source row
and column, copy grid[row * w + col] to the output at
(h - 1 - row) * w + col, starting from a zero-initialised buffer. -/
def pgmFlip (grid : ℕ → ℕ) (w h : ℕ) : ℕ → ℕ :=
  (List.range h).foldl (pgmRowStep grid w h) (fun _ => 0)

/-- generatePGM of the source: header bytes followed by the flipped grid. -/
def generatePGM (grid : ℕ → ℕ) (w h : ℕ) : List ℕ :=
  strBytes (pgmHeader w h) ++ (List.range (w * h)).map (pgmFlip grid w h)

/-- generateYAML of the source.  The numeric fields interpolated by the
JS template string (resolution and the two origin components) are taken
as already-rendered strings. -/
def generateYAML (name resolution originX originY : String) : String :=
  "image: " ++ name ++ ".pgm\nresolution: " ++ resolution ++
    "\norigin: [" ++ originX ++ ", " ++ originY ++
    ", 0.0]\nnegate: 0\noccupied_thresh: 0.65\nfree_thresh: 0.196\n"

/-- The single-quote character used inside the NPY header dictionary. -/
def quoteStr : String := String.singleton (Char.ofNat 39)

/-- The magic bytes of the NPY container. -/
def npyMagic : List ℕ := [0x93, 0x4E, 0x55, 0x4D, 0x50, 0x59]

/-- The NPY format version bytes 1, 0. -/
def npyVersion : List ℕ := [1, 0]

/-- The unpadded NPY header dictionary text of generateNPY, with the two
interpolated dimension texts abstracted as already-rendered strings: as
in the YAML encoder, the JS template interpolation of a number is
modelled by concatenating its rendered text.  An ECMA-262 number
rendering is at most 25 characters long (at most a sign and 21 digits in
decimal notation, or a sign, a 17-digit significand, a point and a
4-character exponent in exponential notation), which is what the
alignment theorem below relies on. -/
def npyHeaderDictR (hs ws : String) : String :=
  "\x7b" ++ quoteStr ++ "descr" ++ quoteStr ++ ": " ++ quoteStr ++ "<u1" ++
    quoteStr ++ ", " ++ quoteStr ++ "fortran_order" ++ quoteStr ++ ": False, " ++
    quoteStr ++ "shape" ++ quoteStr ++ ": (" ++ hs ++ ", " ++ ws ++
    "), \x7d"

/-- Padding size computed by generateNPY so that 10 bytes of preamble plus
the header dictionary would be 64-byte aligned. -/
def npyPadLenR (hs ws : String) : ℕ :=
  (64 - ((10 + (npyHeaderDictR hs ws).length) % 64)) % 64

/-- The final header bytes of generateNPY: the dictionary, then
paddingSize - 1 spaces when the padding is positive (none otherwise),
then a newline. -/
def npyFinalHeaderR (hs ws : String) : List ℕ :=
  strBytes (npyHeaderDictR hs ws) ++ List.replicate (npyPadLenR hs ws - 1) 32 ++ [10]

/-- The full NPY preamble: magic, version, the two little-endian header
length bytes, then the final header bytes. -/
def npyPreambleR (hs ws : String) : List ℕ :=
  npyMagic ++ npyVersion ++
    [(npyFinalHeaderR hs ws).length % 256, ((npyFinalHeaderR hs ws).length / 256) % 256] ++
    npyFinalHeaderR hs ws

/-- generateNPY of the source with the rendered dimension texts as
arguments: the preamble followed by the raw grid bytes. -/
def generateNPYR (grid : List ℕ) (hs ws : String) : List ℕ :=
  npyPreambleR hs ws ++ grid

/-- The header dictionary of the rasterizer pipeline, whose dimensions
are naturals rendered in decimal; this agrees with the JS rendering for
every dimension below 10^21 (far beyond any realistic grid). -/
def npyHeaderDict (h w : ℕ) : String := npyHeaderDictR (toString h) (toString w)

/-- Padding size of the pipeline instance. -/
def npyPadLen (h w : ℕ) : ℕ := npyPadLenR (toString h) (toString w)

/-- Final header bytes of the pipeline instance. -/
def npyFinalHeader (h w : ℕ) : List ℕ := npyFinalHeaderR (toString h) (toString w)

/-- Preamble of the pipeline instance. -/
def npyPreamble (h w : ℕ) : List ℕ := npyPreambleR (toString h) (toString w)

/-- generateNPY of the source as called by the pipeline; the declared
shape is (height, width). -/
def generateNPY (grid : List ℕ) (w h : ℕ) : List ℕ := npyPreamble h w ++ grid

/-- The value remapping of generatePlannerNPY: 0 becomes 1, 254 becomes
0, anything else becomes 0. -/
def plannerRemap (v : ℕ) : ℕ := if v = 0 then 1 else if v = 254 then 0 else 0

/-- generatePlannerNPY of the source: remap every cell in place, then
encode with generateNPY. -/
def generatePlannerNPY (grid : List ℕ) (w h : ℕ) : List ℕ :=
  generateNPY (grid.map plannerRemap) w h

/-! ### Generic fold characterizations -/

/-- Characterization of a left fold of conditional writes of the constant
0 into a flat buffer: the final value at an index is 0 when some list
element writes it, and the initial value otherwise. -/
lemma foldl_write0_char {α : Type} (step : (ℕ → ℕ) → α → ℕ → ℕ)
    (D : α → ℕ → Prop)
    (h1 : ∀ g x i, D x i → step g x i = 0)
    (h0 : ∀ g x i, ¬ D x i → step g x i = g i) :
    ∀ (L : List α) (g : ℕ → ℕ) (i : ℕ),
      ((∃ x ∈ L, D x i) → (L.foldl step g) i = 0) ∧
      (¬ (∃ x ∈ L, D x i) → (L.foldl step g) i = g i) := by
  intro L
  induction L with
  | nil =>
      intro g i
      refine ⟨fun h => ?_, fun _ => rfl⟩
      obtain ⟨x, hx, -⟩ := h
      cases hx
  | cons x L ih =>
      intro g i
      simp only [List.foldl_cons]
      constructor
      · rintro ⟨y, hy, hD⟩
        rcases List.mem_cons.mp hy with rfl | hyL
        · by_cases hL : ∃ z ∈ L, D z i
          · exact (ih (step g y) i).1 hL
          · rw [(ih (step g y) i).2 hL, h1 g y i hD]
        · exact (ih (step g x) i).1 ⟨y, hyL, hD⟩
      · intro hno
        have hx : ¬ D x i := fun h => hno ⟨x, List.mem_cons_self x L, h⟩
        have hL : ¬ ∃ z ∈ L, D z i :=
          fun h => hno (by obtain ⟨z, hz, hDz⟩ := h; exact ⟨z, List.mem_cons_of_mem x hz, hDz⟩)
        rw [(ih (step g x) i).2 hL, h0 g x i hx]

/-- Membership in the integer loop range. -/
lemma mem_intRange {a b v : ℤ} : v ∈ intRange a b ↔ a ≤ v ∧ v ≤ b := by
  rw [intRange, List.mem_map]
  constructor
  · rintro ⟨k, hk, rfl⟩
    rw [List.mem_range] at hk
    omega
  · rintro ⟨h1, h2⟩
    refine ⟨(v - a).toNat, ?_, ?_⟩
    · rw [List.mem_range]
      omega
    · omega

/-- Value of setGridCell at an arbitrary flat index, writing case. -/
lemma setGridCell_apply_eq {gw gh : ℤ} {g : ℕ → ℕ} {gx gy : ℤ} {v : ℕ} {i : ℕ}
    (hvalid : validCell gw gh gx gy) (hi : i = (gy * gw + gx).toNat) :
    setGridCell gw gh g gx gy v i = v := by
  unfold setGridCell
  rw [if_pos hvalid]
  simp [hi]

/-- Value of setGridCell at an arbitrary flat index, untouched case. -/
lemma setGridCell_apply_ne {gw gh : ℤ} {g : ℕ → ℕ} {gx gy : ℤ} {v : ℕ} {i : ℕ}
    (h : ¬ (validCell gw gh gx gy ∧ i = (gy * gw + gx).toNat)) :
    setGridCell gw gh g gx gy v i = g i := by
  unfold setGridCell
  by_cases hvalid : validCell gw gh gx gy
  · have hne : i ≠ (gy * gw + gx).toNat := fun hi => h ⟨hvalid, hi⟩
    rw [if_pos hvalid]
    simp [hne]
  · rw [if_neg hvalid]

/-- The condition under which the whole per-object rasterization writes
a 0 at flat index i. -/
def objWriteCond (mi : MapInfo) (gw gh : ℤ) (obj : MapObject) (i : ℕ) : Prop :=
  ¬ excludedType obj.type ∧
  ∃ mnX mxX mnY mxY, shapeBounds obj.shape = some (mnX, mxX, mnY, mxY) ∧
    ∃ gy ∈ intRange (worldToGrid mi mnX mnY).2 (worldToGrid mi mxX mxY).2,
      ∃ gx ∈ intRange (worldToGrid mi mnX mnY).1 (worldToGrid mi mxX mxY).1,
        isPointInShape (cellCenter mi gx gy) obj.shape = true ∧
        validCell gw gh gx gy ∧ i = (gy * gw + gx).toNat

/-- Characterization of one cell step of the rasterization loop. -/
lemma rasterCellStep_char (mi : MapInfo) (gw gh : ℤ) (s : Shape) (gy : ℤ) :
    (∀ g gx i, (isPointInShape (cellCenter mi gx gy) s = true ∧
        validCell gw gh gx gy ∧ i = (gy * gw + gx).toNat) →
        rasterCellStep mi gw gh s gy g gx i = 0) ∧
    (∀ g gx i, ¬ (isPointInShape (cellCenter mi gx gy) s = true ∧
        validCell gw gh gx gy ∧ i = (gy * gw + gx).toNat) →
        rasterCellStep mi gw gh s gy g gx i = g i) := by
  constructor
  · rintro g gx i ⟨hin, hvalid, hi⟩
    unfold rasterCellStep
    rw [if_pos hin]
    exact setGridCell_apply_eq hvalid hi
  · intro g gx i h
    unfold rasterCellStep
    by_cases hin : isPointInShape (cellCenter mi gx gy) s
    · rw [if_pos hin]
      exact setGridCell_apply_ne (fun ⟨hv, hi⟩ => h ⟨hin, hv, hi⟩)
    · rw [if_neg hin]

/-- Characterization of one row step of the rasterization loop. -/
lemma rasterRowStep_char (mi : MapInfo) (gw gh : ℤ) (s : Shape) (lox hix : ℤ) :
    (∀ g gy i, (∃ gx ∈ intRange lox hix,
        isPointInShape (cellCenter mi gx gy) s = true ∧
        validCell gw gh gx gy ∧ i = (gy * gw + gx).toNat) →
        rasterRowStep mi gw gh s lox hix g gy i = 0) ∧
    (∀ g gy i, ¬ (∃ gx ∈ intRange lox hix,
        isPointInShape (cellCenter mi gx gy) s = true ∧
        validCell gw gh gx gy ∧ i = (gy * gw + gx).toNat) →
        rasterRowStep mi gw gh s lox hix g gy i = g i) := by
  constructor
  · intro g gy i h
    exact (foldl_write0_char (rasterCellStep mi gw gh s gy) _
      (rasterCellStep_char mi gw gh s gy).1
      (rasterCellStep_char mi gw gh s gy).2 (intRange lox hix) g i).1 h
  · intro g gy i h
    exact (foldl_write0_char (rasterCellStep mi gw gh s gy) _
      (rasterCellStep_char mi gw gh s gy).1
      (rasterCellStep_char mi gw gh s gy).2 (intRange lox hix) g i).2 h

/-- Characterization of the rasterization of one object. -/
lemma rasterizeObject_char (mi : MapInfo) (gw gh : ℤ) :
    (∀ g obj i, objWriteCond mi gw gh obj i → rasterizeObject mi gw gh g obj i = 0) ∧
    (∀ g obj i, ¬ objWriteCond mi gw gh obj i → rasterizeObject mi gw gh g obj i = g i) := by
  constructor
  · rintro g obj i ⟨hexcl, mnX, mxX, mnY, mxY, hb, hcond⟩
    unfold rasterizeObject
    rw [if_neg hexcl, hb]
    exact (foldl_write0_char (rasterRowStep mi gw gh obj.shape _ _) _
      (rasterRowStep_char mi gw gh obj.shape _ _).1
      (rasterRowStep_char mi gw gh obj.shape _ _).2 _ g i).1 hcond
  · intro g obj i h
    unfold rasterizeObject
    by_cases hexcl : excludedType obj.type
    · rw [if_pos hexcl]
    · rw [if_neg hexcl]
      rcases hbm : shapeBounds obj.shape with - | ⟨mnX, mxX, mnY, mxY⟩
      · rfl
      · have hcond : ¬ ∃ gy ∈ intRange (worldToGrid mi mnX mnY).2 (worldToGrid mi mxX mxY).2,
            ∃ gx ∈ intRange (worldToGrid mi mnX mnY).1 (worldToGrid mi mxX mxY).1,
              isPointInShape (cellCenter mi gx gy) obj.shape = true ∧
              validCell gw gh gx gy ∧ i = (gy * gw + gx).toNat := by
          intro hc
          exact h ⟨hexcl, mnX, mxX, mnY, mxY, hbm, hc⟩
        exact (foldl_write0_char (rasterRowStep mi gw gh obj.shape _ _) _
          (rasterRowStep_char mi gw gh obj.shape _ _).1
          (rasterRowStep_char mi gw gh obj.shape _ _).2 _ g i).2 hcond

/-- Characterization of the final grid at an arbitrary flat index: 0 when
some object writes the index, 254 otherwise. -/
lemma generateGrid_char (mi : MapInfo) (objects : List MapObject) (i : ℕ) :
    ((∃ o ∈ objects, objWriteCond mi (gridWidthOf mi) (gridHeightOf mi) o i) →
      generateGrid mi objects i = 0) ∧
    (¬ (∃ o ∈ objects, objWriteCond mi (gridWidthOf mi) (gridHeightOf mi) o i) →
      generateGrid mi objects i = 254) := by
  unfold generateGrid
  exact foldl_write0_char _ _
    (rasterizeObject_char mi (gridWidthOf mi) (gridHeightOf mi)).1
    (rasterizeObject_char mi (gridWidthOf mi) (gridHeightOf mi)).2 objects (fun _ => 254) i

/-! ### Flat index arithmetic -/

/-- The flat index of a valid cell is inside the buffer. -/
lemma flatIndex_lt {gw gh gx gy : ℤ} (h : validCell gw gh gx gy) :
    (gy * gw + gx).toNat < (gw * gh).toNat := by
  obtain ⟨h1, h2, h3, h4⟩ := h
  have hgw : 0 < gw := lt_of_le_of_lt h1 h2
  have hlt : gy * gw + gx < gw * gh := by
    nlinarith [mul_le_mul_of_nonneg_right (by omega : gy + 1 ≤ gh) (le_of_lt hgw)]
  have h0 : 0 ≤ gy * gw + gx := add_nonneg (mul_nonneg h3 (le_of_lt hgw)) h1
  omega

/-- Row-major flat indices of two valid cells agree only when the cells
agree. -/
lemma flatIndex_inj {gw gh gx gy tx ty : ℤ} (h : validCell gw gh gx gy)
    (ht : validCell gw gh tx ty)
    (heq : (gy * gw + gx).toNat = (ty * gw + tx).toNat) :
    gx = tx ∧ gy = ty := by
  obtain ⟨h1, h2, h3, h4⟩ := h
  obtain ⟨t1, t2, t3, t4⟩ := ht
  have hgw : 0 < gw := lt_of_le_of_lt h1 h2
  have e : gy * gw + gx = ty * gw + tx := by
    have a0 : 0 ≤ gy * gw + gx := add_nonneg (mul_nonneg h3 (le_of_lt hgw)) h1
    have b0 : 0 ≤ ty * gw + tx := add_nonneg (mul_nonneg t3 (le_of_lt hgw)) t1
    have hc := congrArg (Nat.cast : ℕ → ℤ) heq
    rwa [Int.toNat_of_nonneg a0, Int.toNat_of_nonneg b0] at hc
  have hy : gy = ty := by
    rcases lt_trichotomy gy ty with hlt | hq | hgt
    · exfalso
      nlinarith [mul_le_mul_of_nonneg_right (by omega : gy + 1 ≤ ty) (le_of_lt hgw)]
    · exact hq
    · exfalso
      nlinarith [mul_le_mul_of_nonneg_right (by omega : ty + 1 ≤ gy) (le_of_lt hgw)]
  subst hy
  exact ⟨by linarith, rfl⟩

/-- C8.  Every cell write whose grid index falls outside the grid bounds
is a bounds-checked no-op, and the final grid is untouched (value 254) at
every flat index at or beyond the buffer size: only in-range cells are
ever modified. -/
theorem rasterizer_bounds_safety :
    (∀ (gw gh : ℤ) (g : ℕ → ℕ) (gx gy : ℤ) (v : ℕ),
        ¬ validCell gw gh gx gy → setGridCell gw gh g gx gy v = g) ∧
    (∀ (mi : MapInfo) (objects : List MapObject) (i : ℕ),
        ((gridWidthOf mi) * (gridHeightOf mi)).toNat ≤ i →
        generateGrid mi objects i = 254) := by
  constructor
  · intro gw gh g gx gy v h
    unfold setGridCell
    rw [if_neg h]
  · intro mi objects i hi
    apply (generateGrid_char mi objects i).2
    rintro ⟨o, ho, hcond⟩
    obtain ⟨-, mnX, mxX, mnY, mxY, -, gy, -, gx, -, -, hvalid, hidx⟩ := hcond
    have := flatIndex_lt hvalid
    omega

/-- Witness for C8 at a concrete out-of-bounds write. -/
theorem rasterizer_bounds_safety_witness :
    setGridCell 4 4 (fun _ => 254) (-1) 2 0 = (fun _ => 254) :=
  rasterizer_bounds_safety.1 4 4 (fun _ => 254) (-1) 2 0 (by decide)

/-- C2.  Rasterizing any permutation of the object list yields a grid
identical cell for cell to rasterizing the original list. -/
theorem generateGrid_perm_invariant (mi : MapInfo) (l1 l2 : List MapObject)
    (hperm : l1.Perm l2) : ∀ i, generateGrid mi l1 i = generateGrid mi l2 i := by
  intro i
  by_cases h : ∃ o ∈ l1, objWriteCond mi (gridWidthOf mi) (gridHeightOf mi) o i
  · obtain ⟨o, ho, hc⟩ := h
    rw [(generateGrid_char mi l1 i).1 ⟨o, ho, hc⟩,
        (generateGrid_char mi l2 i).1 ⟨o, hperm.mem_iff.mp ho, hc⟩]
  · have h2 : ¬ ∃ o ∈ l2, objWriteCond mi (gridWidthOf mi) (gridHeightOf mi) o i := by
      rintro ⟨o, ho, hc⟩
      exact h ⟨o, hperm.mem_iff.mpr ho, hc⟩
    rw [(generateGrid_char mi l1 i).2 h, (generateGrid_char mi l2 i).2 h2]

/-- Witness for C2 at a concrete two-element swap. -/
theorem generateGrid_perm_invariant_witness :
    generateGrid ⟨"m", 1, 1, 1, (0, 0)⟩
      [⟨"wall", Shape.circle (0, 0) 1⟩, ⟨"obstacle", Shape.circle (1, 1) 1⟩] 0 =
    generateGrid ⟨"m", 1, 1, 1, (0, 0)⟩
      [⟨"obstacle", Shape.circle (1, 1) 1⟩, ⟨"wall", Shape.circle (0, 0) 1⟩] 0 :=
  generateGrid_perm_invariant ⟨"m", 1, 1, 1, (0, 0)⟩ _ _
    (List.Perm.swap ⟨"obstacle", Shape.circle (1, 1) 1⟩ ⟨"wall", Shape.circle (0, 0) 1⟩ []) 0

/-- C3.  An object list containing only robot or landmark entries yields
an all-free grid of the expected ceil-derived dimensions. -/
theorem generateGrid_excluded_all_free (mi : MapInfo) (objects : List MapObject)
    (_hres : 0 < mi.resolution)
    (hexcl : ∀ o ∈ objects, o.type = "robot" ∨ o.type = "landmark") :
    gridWidthOf mi = ⌈mi.width / mi.resolution⌉ ∧
    gridHeightOf mi = ⌈mi.height / mi.resolution⌉ ∧
    ∀ i, generateGrid mi objects i = 254 := by
  refine ⟨rfl, rfl, fun i => ?_⟩
  apply (generateGrid_char mi objects i).2
  rintro ⟨o, ho, hcond⟩
  exact hcond.1 (hexcl o ho)

/-- Witness for C3 at a concrete robot-only list. -/
theorem generateGrid_excluded_all_free_witness :
    (0 : ℝ) < 1 ∧
    generateGrid ⟨"m", 2, 2, 1, (0, 0)⟩ [⟨"robot", Shape.circle (0, 0) 1⟩] 0 = 254 := by
  refine ⟨by norm_num, ?_⟩
  have h := generateGrid_excluded_all_free ⟨"m", 2, 2, 1, (0, 0)⟩
    [⟨"robot", Shape.circle (0, 0) 1⟩] (by norm_num) ?_
  · exact h.2.2 0
  · intro o ho
    rw [List.mem_singleton] at ho
    subst ho
    left
    rfl

/-! ### PGM encoder -/

/-- A left fold of conditional writes leaves an index untouched when no
list element writes it. -/
lemma foldl_preserve_at {α : Type} (i : ℕ) (step : (ℕ → ℕ) → α → ℕ → ℕ)
    (D : α → Prop) :
    ∀ (L : List α) (g : ℕ → ℕ),
      (∀ g2 x, x ∈ L → ¬ D x → step g2 x i = g2 i) →
      (∀ x ∈ L, ¬ D x) → (L.foldl step g) i = g i := by
  intro L
  induction L with
  | nil => intro g _ _; rfl
  | cons x L ih =>
      intro g hstep hno
      simp only [List.foldl_cons]
      rw [ih (step g x)
        (fun g2 y hy => hstep g2 y (List.mem_cons_of_mem x hy))
        (fun y hy => hno y (List.mem_cons_of_mem x hy))]
      exact hstep g x (List.mem_cons_self x L) (hno x (List.mem_cons_self x L))

/-- A left fold of conditional writes stores the written value at an
index when some element writes it and all writers agree on the value. -/
lemma foldl_write_at {α : Type} (i : ℕ) (step : (ℕ → ℕ) → α → ℕ → ℕ)
    (D : α → Prop) (V : α → ℕ) :
    ∀ (L : List α) (g : ℕ → ℕ) (x0 : α),
      (∀ g2 x, x ∈ L → D x → step g2 x i = V x) →
      (∀ g2 x, x ∈ L → ¬ D x → step g2 x i = g2 i) →
      x0 ∈ L → D x0 → (∀ x ∈ L, D x → V x = V x0) →
      (L.foldl step g) i = V x0 := by
  intro L
  induction L with
  | nil => intro g x0 _ _ hx0; cases hx0
  | cons x L ih =>
      intro g x0 h1 h0 hx0 hD0 hagree
      simp only [List.foldl_cons]
      by_cases hL : ∃ y ∈ L, D y
      · obtain ⟨y, hy, hDy⟩ := hL
        have := ih (step g x) y
          (fun g2 z hz => h1 g2 z (List.mem_cons_of_mem x hz))
          (fun g2 z hz => h0 g2 z (List.mem_cons_of_mem x hz))
          hy hDy
          (fun z hz hDz => by
            rw [hagree z (List.mem_cons_of_mem x hz) hDz,
                ← hagree y (List.mem_cons_of_mem x hy) hDy])
        rw [this, hagree y (List.mem_cons_of_mem x hy) hDy]
      · have hx : x0 = x := by
          rcases List.mem_cons.mp hx0 with h | h
          · exact h
          · exact absurd ⟨x0, h, hD0⟩ hL
        subst hx
        rw [foldl_preserve_at i step D L (step g x0)
          (fun g2 z hz => h0 g2 z (List.mem_cons_of_mem x0 hz))
          (fun z hz hDz => hL ⟨z, hz, hDz⟩)]
        exact h1 g x0 (List.mem_cons_self x0 L) hD0

/-- Value of the vertical-flip scatter at a flipped output index. -/
lemma pgmFlip_apply (grid : ℕ → ℕ) (w h r c : ℕ) (hr : r < h) (hc : c < w) :
    pgmFlip grid w h (r * w + c) = grid ((h - 1 - r) * w + c) := by
  have hw : 0 < w := Nat.pos_of_ne_zero (by omega)
  have hmod : (r * w + c) % w = c := by
    rw [Nat.add_comm, Nat.add_mul_mod_self_right, Nat.mod_eq_of_lt hc]
  have hdiv : (r * w + c) / w = r := by
    rw [Nat.add_comm, Nat.mul_comm, Nat.add_mul_div_left _ _ hw, Nat.div_eq_of_lt hc]
    omega
  unfold pgmFlip
  have hmain := foldl_write_at (r * w + c) (pgmRowStep grid w h)
    (fun row => row < h ∧ ∃ col, col < w ∧ r * w + c = (h - 1 - row) * w + col)
    (fun row => grid (row * w + (r * w + c) % w))
    (List.range h) (fun _ => 0) (h - 1 - r)
    ?h1 ?h0 ?hmem ?hD0 ?hagree
  case h1 =>
    intro g2 row hrow hD
    obtain ⟨hrowh, col, hcolw, hi⟩ := hD
    have hcoleq : col = (r * w + c) % w := by
      rw [hi, Nat.mul_comm (h - 1 - row) w, Nat.mul_add_mod, Nat.mod_eq_of_lt hcolw]
    unfold pgmRowStep
    have := foldl_write_at (r * w + c) (pgmColStep grid w h row)
      (fun col2 => r * w + c = (h - 1 - row) * w + col2)
      (fun col2 => grid (row * w + col2))
      (List.range w) g2 col
      (fun g3 col2 _ hD2 => by unfold pgmColStep; rw [if_pos hD2])
      (fun g3 col2 _ hD2 => by unfold pgmColStep; rw [if_neg hD2])
      (List.mem_range.mpr hcolw) hi
      (fun col2 _ hD2 => by
        have : col2 = col := by omega
        rw [this])
    rw [this, hcoleq]
  case h0 =>
    intro g2 row hrow hD
    unfold pgmRowStep
    apply foldl_preserve_at (r * w + c) (pgmColStep grid w h row) _ (List.range w) g2
      (fun g3 col2 _ hD2 => by unfold pgmColStep; rw [if_neg hD2])
    intro col2 hcol2 hD2
    exact hD ⟨List.mem_range.mp hrow, col2, List.mem_range.mp hcol2, hD2⟩
  case hmem => exact List.mem_range.mpr (by omega)
  case hD0 =>
    refine ⟨by omega, c, hc, ?_⟩
    have : h - 1 - (h - 1 - r) = r := by omega
    rw [this]
  case hagree =>
    intro row hrow hD
    obtain ⟨hrowh, col, hcolw, hi⟩ := hD
    have hrowr : row = h - 1 - r := by
      have h1 : (r * w + c) / w = h - 1 - row := by
        rw [hi, Nat.add_comm, Nat.mul_comm, Nat.add_mul_div_left _ _ hw,
          Nat.div_eq_of_lt hcolw]
        omega
      rw [hdiv] at h1
      omega
    rw [hrowr]
  rw [hmain, hmod]

/-- C5.  The image encoder output is exactly the ASCII header
P5 newline width space height newline 255 newline, followed by
width * height raw bytes, where the pixel at output row r (from the top)
and column c is the grid cell at row h - 1 - r, column c: a pure vertical
flip with column order preserved and no value remapping. -/
theorem generatePGM_spec (grid : ℕ → ℕ) (w h : ℕ) :
    (generatePGM grid w h).length = (strBytes (pgmHeader w h)).length + w * h ∧
    (generatePGM grid w h).take (strBytes (pgmHeader w h)).length =
      strBytes (pgmHeader w h) ∧
    pgmHeader w h = "P5\n" ++ toString w ++ " " ++ toString h ++ "\n255\n" ∧
    ∀ r c, r < h → c < w →
      (generatePGM grid w h).getD ((strBytes (pgmHeader w h)).length + (r * w + c)) 0 =
        grid ((h - 1 - r) * w + c) := by
  refine ⟨?_, ?_, rfl, ?_⟩
  · unfold generatePGM
    rw [List.length_append, List.length_map, List.length_range]
  · unfold generatePGM
    rw [List.take_left]
  · intro r c hr hc
    unfold generatePGM
    rw [List.getD_append_right _ _ _ _ (by omega), Nat.add_sub_cancel_left]
    have hlt : r * w + c < w * h := by
      calc r * w + c < r * w + w := by omega
        _ = (r + 1) * w := by ring
        _ ≤ h * w := Nat.mul_le_mul_right w (by omega)
        _ = w * h := Nat.mul_comm h w
    rw [List.getD_eq_getElem?_getD, List.getElem?_map, List.getElem?_range hlt]
    simp only [Option.map_some', Option.getD_some]
    exact pgmFlip_apply grid w h r c hr hc

/-- Witness for C5 at a concrete grid and cell. -/
theorem generatePGM_spec_witness :
    (generatePGM (fun i => i + 3) 2 2).getD
      ((strBytes (pgmHeader 2 2)).length + (1 * 2 + 0)) 0 =
      (fun i => i + 3) ((2 - 1 - 1) * 2 + 0) :=
  (generatePGM_spec (fun i => i + 3) 2 2).2.2.2 1 0 (by decide) (by decide)

/-! ### NPY encoders -/

/-- C7.  The planner-flavor array encoder remaps each cell value
independently and positionally, 0 to 1, 254 to 0, anything else to 0,
with no axis flip: the data byte at flat index i of the output is the
remapped grid cell at flat index i. -/
theorem generatePlannerNPY_spec (grid : List ℕ) (w h : ℕ) :
    generatePlannerNPY grid w h = npyPreamble h w ++ grid.map plannerRemap ∧
    plannerRemap 0 = 1 ∧ plannerRemap 254 = 0 ∧
    (∀ v, v ≠ 0 → v ≠ 254 → plannerRemap v = 0) ∧
    (grid.map plannerRemap).length = grid.length ∧
    ∀ i, i < grid.length →
      (generatePlannerNPY grid w h).getD ((npyPreamble h w).length + i) 0 =
        plannerRemap (grid.getD i 0) := by
  refine ⟨rfl, rfl, rfl, ?_, List.length_map grid plannerRemap, ?_⟩
  · intro v h1 h2
    unfold plannerRemap
    rw [if_neg h1, if_neg h2]
  · intro i hi
    show (npyPreamble h w ++ grid.map plannerRemap).getD _ 0 = _
    rw [List.getD_append_right _ _ _ _ (by omega), Nat.add_sub_cancel_left]
    rw [List.getD_eq_getElem?_getD, List.getElem?_map, List.getElem?_eq_getElem hi]
    simp only [Option.map_some', Option.getD_some]
    rw [List.getD_eq_getElem?_getD, List.getElem?_eq_getElem hi]
    rfl

/-- Witness for C7 at a concrete grid and index. -/
theorem generatePlannerNPY_spec_witness :
    (generatePlannerNPY [0, 254, 7] 3 1).getD ((npyPreamble 1 3).length + 2) 0 =
      plannerRemap ([0, 254, 7].getD 2 0) :=
  (generatePlannerNPY_spec [0, 254, 7] 3 1).2.2.2.2.2 2 (by decide)

/-- Length of the header dictionary: 57 fixed characters plus the two
rendered dimension texts. -/
lemma npyHeaderDictR_length (hs ws : String) :
    (npyHeaderDictR hs ws).length = 57 + hs.length + ws.length := by
  have hq : quoteStr.length = 1 := rfl
  simp only [npyHeaderDictR, String.length_append, hq]
  have l1 : ("\x7b" : String).length = 1 := rfl
  have l2 : ("descr" : String).length = 5 := rfl
  have l3 : (": " : String).length = 2 := rfl
  have l4 : ("<u1" : String).length = 3 := rfl
  have l5 : (", " : String).length = 2 := rfl
  have l6 : ("fortran_order" : String).length = 13 := rfl
  have l7 : (": False, " : String).length = 9 := rfl
  have l8 : ("shape" : String).length = 5 := rfl
  have l9 : (": (" : String).length = 3 := rfl
  have l10 : ("), \x7d" : String).length = 4 := rfl
  rw [l1, l2, l3, l4, l5, l6, l7, l8, l9, l10]
  omega

/-- C6.  For every grid and every pair of rendered dimension texts of at
most 25 characters each (every ECMA-262 number rendering satisfies this,
whether decimal, exponential, Infinity or NaN), the numeric-array
encoder output begins with the 6-byte magic, the version bytes 1 0, the
2-byte little-endian header length, and the header dictionary padded
with trailing spaces plus a newline such that the total preamble length
is a multiple of 64 bytes, followed immediately by the data bytes.  The
pipeline encoder generateNPY is the instance at the decimal rendering. -/
theorem generateNPY_alignment (grid : List ℕ) (hs ws : String)
    (hhs : hs.length ≤ 25) (hws : ws.length ≤ 25) :
    generateNPYR grid hs ws =
      npyMagic ++ npyVersion ++
        [(npyFinalHeaderR hs ws).length % 256,
          ((npyFinalHeaderR hs ws).length / 256) % 256] ++
        npyFinalHeaderR hs ws ++ grid ∧
    npyMagic = [0x93, 0x4E, 0x55, 0x4D, 0x50, 0x59] ∧
    npyVersion = [1, 0] ∧
    npyFinalHeaderR hs ws =
      strBytes (npyHeaderDictR hs ws) ++
        List.replicate (npyPadLenR hs ws - 1) 32 ++ [10] ∧
    (∀ (w h : ℕ), generateNPY grid w h = generateNPYR grid (toString h) (toString w)) ∧
    (6 + 2 + 2 + (npyFinalHeaderR hs ws).length) % 64 = 0 := by
  refine ⟨by simp [generateNPYR, npyPreambleR], rfl, rfl, rfl, fun w h => rfl, ?_⟩
  have hlen : (npyFinalHeaderR hs ws).length =
      (npyHeaderDictR hs ws).length + (npyPadLenR hs ws - 1) + 1 := by
    unfold npyFinalHeaderR
    rw [List.length_append, List.length_append, List.length_replicate,
      List.length_singleton]
    unfold strBytes
    rw [List.length_map]
    rfl
  rw [hlen, npyHeaderDictR_length]
  unfold npyPadLenR
  rw [npyHeaderDictR_length]
  omega

/-- Witness for C6 at concrete 200 by 200 rendered dimensions. -/
theorem generateNPY_alignment_witness :
    (6 + 2 + 2 + (npyFinalHeaderR "200" "200").length) % 64 = 0 :=
  (generateNPY_alignment [] "200" "200" (by decide) (by decide)).2.2.2.2.2

/-! ### YAML encoder -/

/-- Split a character list at newline characters; used to state the line
structure of the emitted YAML document. -/
def splitNL : List Char → List (List Char)
  | [] => [[]]
  | c :: cs =>
      if c = '\n' then [] :: splitNL cs
      else
        match splitNL cs with
        | [] => [[c]]
        | t :: ts => (c :: t) :: ts

/-- Splitting a buffer that starts with a newline-free segment followed
by a newline yields that segment as the first line. -/
lemma splitNL_append (a rest : List Char) (ha : '\n' ∉ a) :
    splitNL (a ++ '\n' :: rest) = a :: splitNL rest := by
  induction a with
  | nil => simp [splitNL]
  | cons c a ih =>
      have hc : c ≠ '\n' := fun h => ha (h ▸ List.mem_cons_self c a)
      have ha2 : '\n' ∉ a := fun h => ha (List.mem_cons_of_mem c h)
      simp only [List.cons_append, splitNL, if_neg hc, List.append_eq, ih ha2]

/-- C9.  The metadata document consists of exactly six lines plus the
trailing newline; the origin line is a 3-element list whose third
component is the constant 0.0, and the negate, occupied_thresh and
free_thresh lines are the constants 0, 0.65 and 0.196, regardless of
input. -/
theorem generateYAML_constants (name resolution originX originY : String)
    (h1 : '\n' ∉ name.data) (h2 : '\n' ∉ resolution.data)
    (h3 : '\n' ∉ originX.data) (h4 : '\n' ∉ originY.data) :
    splitNL (generateYAML name resolution originX originY).data =
      ["image: ".data ++ name.data ++ ".pgm".data,
       "resolution: ".data ++ resolution.data,
       "origin: [".data ++ originX.data ++ ", ".data ++ originY.data ++ ", 0.0]".data,
       "negate: 0".data,
       "occupied_thresh: 0.65".data,
       "free_thresh: 0.196".data,
       []] := by
  have e : (generateYAML name resolution originX originY).data =
      ("image: ".data ++ name.data ++ ".pgm".data) ++ '\n' ::
      (("resolution: ".data ++ resolution.data) ++ '\n' ::
      (("origin: [".data ++ originX.data ++ ", ".data ++ originY.data ++ ", 0.0]".data) ++ '\n' ::
      ("negate: 0".data ++ '\n' ::
      ("occupied_thresh: 0.65".data ++ '\n' ::
      ("free_thresh: 0.196".data ++ '\n' :: ([] : List Char)))))) := by
    simp [generateYAML, String.data_append]
  rw [e]
  rw [splitNL_append _ _ (by
    simp only [List.mem_append]
    rintro ((h | h) | h)
    · revert h; decide
    · exact h1 h
    · revert h; decide)]
  rw [splitNL_append _ _ (by
    simp only [List.mem_append]
    rintro (h | h)
    · revert h; decide
    · exact h2 h)]
  rw [splitNL_append _ _ (by
    simp only [List.mem_append]
    rintro ((((h | h) | h) | h) | h)
    · revert h; decide
    · exact h3 h
    · revert h; decide
    · exact h4 h
    · revert h; decide)]
  rw [splitNL_append _ _ (by decide)]
  rw [splitNL_append _ _ (by decide)]
  rw [splitNL_append _ _ (by decide)]
  rfl

/-- Witness for C9 at concrete rendered inputs. -/
theorem generateYAML_constants_witness :
    splitNL (generateYAML "map1" "0.05" "-1.5" "2").data =
      ["image: ".data ++ "map1".data ++ ".pgm".data,
       "resolution: ".data ++ "0.05".data,
       "origin: [".data ++ "-1.5".data ++ ", ".data ++ "2".data ++ ", 0.0]".data,
       "negate: 0".data,
       "occupied_thresh: 0.65".data,
       "free_thresh: 0.196".data,
       []] :=
  generateYAML_constants "map1" "0.05" "-1.5" "2"
    (by decide) (by decide) (by decide) (by decide)

/-! ### Even-odd polygon test machinery -/

lemma foldl_toggle_allfalse (f : ℕ → Bool) :
    ∀ (L : List ℕ) (a : Bool), (∀ i ∈ L, f i = false) →
      L.foldl (fun acc i => if f i then !acc else acc) a = a := by
  intro L
  induction L with
  | nil => intro a _; rfl
  | cons x L ih =>
      intro a h
      simp only [List.foldl_cons, h x (List.mem_cons_self x L), Bool.false_eq_true,
        if_false]
      exact ih a (fun i hi => h i (List.mem_cons_of_mem x hi))

lemma foldl_toggle_congr (f g : ℕ → Bool) :
    ∀ (L : List ℕ) (a : Bool), (∀ i ∈ L, f i = g i) →
      L.foldl (fun acc i => if f i then !acc else acc) a =
      L.foldl (fun acc i => if g i then !acc else acc) a := by
  intro L
  induction L with
  | nil => intro a _; rfl
  | cons x L ih =>
      intro a h
      simp only [List.foldl_cons, h x (List.mem_cons_self x L)]
      exact ih _ (fun i hi => h i (List.mem_cons_of_mem x hi))

lemma foldl_toggle_eq_bne (g : ℕ → Bool) :
    ∀ (L : List ℕ) (a : Bool),
      L.foldl (fun acc i => if g i then !acc else acc) a =
      L.foldl (fun acc i => acc != g i) a := by
  intro L
  induction L with
  | nil => intro a; rfl
  | cons x L ih =>
      intro a
      simp only [List.foldl_cons]
      rw [ih]
      congr 1
      cases g x <;> cases a <;> rfl

lemma bne_telescope (B : ℕ → Bool) :
    ∀ (k s : ℕ), 1 ≤ s → ∀ (a : Bool),
      (List.range' s k).foldl (fun acc i => acc != (B i != B (i - 1))) a =
        (a != (B (s + k - 1) != B (s - 1))) := by
  intro k
  induction k with
  | zero =>
      intro s hs a
      have h1 : s + 0 - 1 = s - 1 := by omega
      rw [h1]
      simp
  | succ k ih =>
      intro s hs a
      have h1 : List.range' s (k + 1) = s :: List.range' (s + 1) k := rfl
      rw [h1]
      simp only [List.foldl_cons]
      rw [ih (s + 1) (by omega)]
      have h2 : s + 1 + k - 1 = s + k := by omega
      have h3 : s + 1 - 1 = s := by omega
      have h4 : s + (k + 1) - 1 = s + k := by omega
      rw [h2, h3, h4]
      have key : ∀ a x y z : Bool, ((a != (x != y)) != (z != x)) = (a != (z != y)) := by decide
      exact key a (B s) (B (s - 1)) (B (s + k))

lemma bne_cyclic (B : ℕ → Bool) (n : ℕ) :
    (List.range n).foldl (fun acc i => acc != (B i != B ((i + n - 1) % n))) false = false := by
  cases n with
  | zero => rfl
  | succ m =>
      rw [List.range_eq_range']
      have h0 : List.range' 0 (m + 1) = 0 :: List.range' 1 m := rfl
      rw [h0]
      simp only [List.foldl_cons]
      have hm : (0 + (m + 1) - 1) % (m + 1) = m := by
        have : 0 + (m + 1) - 1 = m := by omega
        rw [this]
        exact Nat.mod_eq_of_lt (by omega)
      rw [hm]
      have hcong : ∀ (L : List ℕ) (a : Bool) (f g : ℕ → Bool), (∀ i ∈ L, f i = g i) →
          L.foldl (fun acc i => acc != f i) a = L.foldl (fun acc i => acc != g i) a := by
        intro L
        induction L with
        | nil => intro a f g _; rfl
        | cons x L ih =>
            intro a f g h
            simp only [List.foldl_cons, h x (List.mem_cons_self x L)]
            exact ih _ f g (fun i hi => h i (List.mem_cons_of_mem x hi))
      rw [hcong (List.range' 1 m) _ (fun i => B i != B ((i + (m + 1) - 1) % (m + 1)))
        (fun i => B i != B (i - 1)) ?_]
      · rw [bne_telescope B m 1 (by omega)]
        have h2 : 1 + m - 1 = m := by omega
        rw [h2]
        simp only [Nat.sub_self]
        have key : ∀ x y : Bool, ((false != (x != y)) != (y != x)) = false := by decide
        exact key (B 0) (B m)
      · intro i hi
        have hmem := List.mem_range'_1.mp hi
        have h3 : (i + (m + 1) - 1) % (m + 1) = i - 1 := by
          have e1 : i + (m + 1) - 1 = (i - 1) + (m + 1) := by omega
          rw [e1, Nat.add_mod_right]
          exact Nat.mod_eq_of_lt (by omega)
        show (B i != B ((i + (m + 1) - 1) % (m + 1))) = (B i != B (i - 1))
        rw [h3]

lemma xInt_bounds (xi yi xj yj py : ℝ)
    (hg : (yi > py ∧ ¬ (yj > py)) ∨ (¬ (yi > py) ∧ yj > py)) :
    min xi xj ≤ (xj - xi) * (py - yi) / (yj - yi) + xi ∧
    (xj - xi) * (py - yi) / (yj - yi) + xi ≤ max xi xj := by
  rw [mul_div_assoc]
  set t := (py - yi) / (yj - yi) with ht
  have htb : 0 ≤ t ∧ t ≤ 1 := by
    rcases hg with ⟨h1, h2⟩ | ⟨h1, h2⟩
    · have hd : 0 < yi - yj := by linarith [not_lt.mp h2]
      have ht2 : t = (yi - py) / (yi - yj) := by
        rw [ht, ← neg_div_neg_eq]
        ring_nf
      rw [ht2]
      constructor
      · exact div_nonneg (by linarith) (le_of_lt hd)
      · rw [div_le_one hd]
        linarith [not_lt.mp h2]
    · have hd : 0 < yj - yi := by linarith [not_lt.mp h1]
      constructor
      · exact div_nonneg (by linarith [not_lt.mp h1]) (le_of_lt hd)
      · rw [ht, div_le_one hd]
        linarith
  obtain ⟨ht0, ht1⟩ := htb
  constructor
  · rcases le_total xi xj with hx | hx
    · have : (0 : ℝ) ≤ (xj - xi) * t := mul_nonneg (by linarith) ht0
      calc min xi xj ≤ xi := min_le_left _ _
        _ ≤ (xj - xi) * t + xi := by linarith
    · have : (0 : ℝ) ≤ (xi - xj) * (1 - t) := mul_nonneg (by linarith) (by linarith)
      calc min xi xj ≤ xj := min_le_right _ _
        _ ≤ (xj - xi) * t + xi := by nlinarith
  · rcases le_total xi xj with hx | hx
    · have : (0 : ℝ) ≤ (xj - xi) * (1 - t) := mul_nonneg (by linarith) (by linarith)
      calc (xj - xi) * t + xi ≤ xj := by nlinarith
        _ ≤ max xi xj := le_max_right _ _
    · have : (0 : ℝ) ≤ (xi - xj) * t := mul_nonneg (by linarith) ht0
      calc (xj - xi) * t + xi ≤ xi := by nlinarith
        _ ≤ max xi xj := le_max_left _ _

lemma edgeCross_false_of_guard_eq (p vi vj : ℝ × ℝ)
    (h : decide (vi.2 > p.2) = decide (vj.2 > p.2)) : edgeCross p vi vj = false := by
  unfold edgeCross
  rw [h, bne_self_eq_false, Bool.false_and]

lemma edgeCross_false_of_max_lt (p vi vj : ℝ × ℝ) (h : max vi.1 vj.1 < p.1) :
    edgeCross p vi vj = false := by
  unfold edgeCross
  by_cases a : vi.2 > p.2 <;> by_cases b : vj.2 > p.2 <;>
    simp [a, b, decide_eq_false_iff_not]
  · have hb := (xInt_bounds vi.1 vi.2 vj.1 vj.2 p.2 (Or.inl ⟨a, b⟩)).2
    linarith
  · have hb := (xInt_bounds vi.1 vi.2 vj.1 vj.2 p.2 (Or.inr ⟨a, b⟩)).2
    linarith

lemma edgeCross_eq_bne_of_lt_min (p vi vj : ℝ × ℝ) (h : p.1 < min vi.1 vj.1) :
    edgeCross p vi vj = (decide (vi.2 > p.2) != decide (vj.2 > p.2)) := by
  unfold edgeCross
  by_cases a : vi.2 > p.2 <;> by_cases b : vj.2 > p.2 <;> simp [a, b]
  · have hb := (xInt_bounds vi.1 vi.2 vj.1 vj.2 p.2 (Or.inl ⟨a, b⟩)).1
    linarith
  · have hb := (xInt_bounds vi.1 vi.2 vj.1 vj.2 p.2 (Or.inr ⟨a, b⟩)).1
    linarith

lemma foldl_min_le {α : Type} (f : α → ℝ) (l : List α) (a : ℝ) :
    l.foldl (fun acc u => min acc (f u)) a ≤ a ∧
    ∀ u ∈ l, l.foldl (fun acc u => min acc (f u)) a ≤ f u := by
  induction l generalizing a with
  | nil => exact ⟨le_refl a, fun u hu => absurd hu (List.not_mem_nil u)⟩
  | cons x l ih =>
      simp only [List.foldl_cons]
      refine ⟨le_trans (ih (min a (f x))).1 (min_le_left _ _), ?_⟩
      intro u hu
      rcases List.mem_cons.mp hu with rfl | hu
      · exact le_trans (ih (min a (f u))).1 (min_le_right _ _)
      · exact (ih (min a (f x))).2 u hu

lemma le_foldl_max {α : Type} (f : α → ℝ) (l : List α) (a : ℝ) :
    a ≤ l.foldl (fun acc u => max acc (f u)) a ∧
    ∀ u ∈ l, f u ≤ l.foldl (fun acc u => max acc (f u)) a := by
  induction l generalizing a with
  | nil => exact ⟨le_refl a, fun u hu => absurd hu (List.not_mem_nil u)⟩
  | cons x l ih =>
      simp only [List.foldl_cons]
      refine ⟨le_trans (le_max_left _ _) (ih (max a (f x))).1, ?_⟩
      intro u hu
      rcases List.mem_cons.mp hu with rfl | hu
      · exact le_trans (le_max_right _ _) (ih (max a (f u))).1
      · exact (ih (max a (f x))).2 u hu

lemma getD_mem {α : Type} (l : List α) (i : ℕ) (d : α) (h : i < l.length) :
    l.getD i d ∈ l := by
  rw [List.getD_eq_getElem?_getD, List.getElem?_eq_getElem h]
  exact List.getElem_mem h

lemma insideEvenOdd_bracket (p v : ℝ × ℝ) (rest : List (ℝ × ℝ))
    (hin : insideEvenOdd p (v :: rest) = true) :
    rest.foldl (fun a u => min a u.1) v.1 ≤ p.1 ∧
    p.1 ≤ rest.foldl (fun a u => max a u.1) v.1 ∧
    rest.foldl (fun a u => min a u.2) v.2 ≤ p.2 ∧
    p.2 ≤ rest.foldl (fun a u => max a u.2) v.2 := by
  have hn : 0 < (v :: rest).length := by simp
  have hmem : ∀ i, i < (v :: rest).length → (v :: rest).getD i (0, 0) ∈ v :: rest :=
    fun i hi => getD_mem _ i _ hi
  have hjlt : ∀ i, (i + (v :: rest).length - 1) % (v :: rest).length < (v :: rest).length :=
    fun i => Nat.mod_lt _ hn
  have hminX : ∀ u ∈ v :: rest, rest.foldl (fun a u => min a u.1) v.1 ≤ u.1 := by
    intro u hu
    rcases List.mem_cons.mp hu with rfl | hu
    · exact (foldl_min_le (fun u => u.1) rest u.1).1
    · exact (foldl_min_le (fun u => u.1) rest v.1).2 u hu
  have hmaxX : ∀ u ∈ v :: rest, u.1 ≤ rest.foldl (fun a u => max a u.1) v.1 := by
    intro u hu
    rcases List.mem_cons.mp hu with rfl | hu
    · exact (le_foldl_max (fun u => u.1) rest u.1).1
    · exact (le_foldl_max (fun u => u.1) rest v.1).2 u hu
  have hminY : ∀ u ∈ v :: rest, rest.foldl (fun a u => min a u.2) v.2 ≤ u.2 := by
    intro u hu
    rcases List.mem_cons.mp hu with rfl | hu
    · exact (foldl_min_le (fun u => u.2) rest u.2).1
    · exact (foldl_min_le (fun u => u.2) rest v.2).2 u hu
  have hmaxY : ∀ u ∈ v :: rest, u.2 ≤ rest.foldl (fun a u => max a u.2) v.2 := by
    intro u hu
    rcases List.mem_cons.mp hu with rfl | hu
    · exact (le_foldl_max (fun u => u.2) rest u.2).1
    · exact (le_foldl_max (fun u => u.2) rest v.2).2 u hu
  refine ⟨?_, ?_, ?_, ?_⟩
  · -- lower x bound: parity argument
    by_contra hc
    push_neg at hc
    unfold insideEvenOdd at hin
    rw [foldl_toggle_congr _
      (fun i => decide (((v :: rest).getD i (0, 0)).2 > p.2) !=
        decide (((v :: rest).getD ((i + (v :: rest).length - 1) % (v :: rest).length) (0, 0)).2 > p.2))
      (List.range (v :: rest).length) false ?_] at hin
    · rw [foldl_toggle_eq_bne] at hin
      rw [bne_cyclic (fun k => decide (((v :: rest).getD k (0, 0)).2 > p.2))
        (v :: rest).length] at hin
      exact absurd hin (by simp)
    · intro i hi
      rw [List.mem_range] at hi
      apply edgeCross_eq_bne_of_lt_min
      exact lt_min (lt_of_lt_of_le hc (hminX _ (hmem i hi)))
        (lt_of_lt_of_le hc (hminX _ (hmem _ (hjlt i))))
  · -- upper x bound: no crossing strictly right of all vertices
    by_contra hc
    push_neg at hc
    unfold insideEvenOdd at hin
    rw [foldl_toggle_allfalse _ (List.range (v :: rest).length) false ?_] at hin
    · exact absurd hin (by simp)
    · intro i hi
      rw [List.mem_range] at hi
      apply edgeCross_false_of_max_lt
      exact max_lt (lt_of_le_of_lt (hmaxX _ (hmem i hi)) hc)
        (lt_of_le_of_lt (hmaxX _ (hmem _ (hjlt i))) hc)
  · -- lower y bound: all guards identically true
    by_contra hc
    push_neg at hc
    unfold insideEvenOdd at hin
    rw [foldl_toggle_allfalse _ (List.range (v :: rest).length) false ?_] at hin
    · exact absurd hin (by simp)
    · intro i hi
      rw [List.mem_range] at hi
      apply edgeCross_false_of_guard_eq
      rw [decide_eq_true (lt_of_lt_of_le hc (hminY _ (hmem i hi))),
          decide_eq_true (lt_of_lt_of_le hc (hminY _ (hmem _ (hjlt i))))]
  · -- upper y bound: all guards identically false
    by_contra hc
    push_neg at hc
    unfold insideEvenOdd at hin
    rw [foldl_toggle_allfalse _ (List.range (v :: rest).length) false ?_] at hin
    · exact absurd hin (by simp)
    · intro i hi
      rw [List.mem_range] at hi
      apply edgeCross_false_of_guard_eq
      rw [decide_eq_false (not_lt.mpr (le_of_lt (lt_of_le_of_lt (hmaxY _ (hmem i hi)) hc))),
          decide_eq_false (not_lt.mpr (le_of_lt (lt_of_le_of_lt (hmaxY _ (hmem _ (hjlt i))) hc)))]

lemma insideEvenOdd_nil (p : ℝ × ℝ) : insideEvenOdd p [] = false := rfl

lemma insideEvenOdd_single (p a : ℝ × ℝ) : insideEvenOdd p [a] = false := by
  unfold insideEvenOdd
  have h1 : List.range [a].length = [0] := rfl
  rw [h1]
  simp only [List.foldl_cons, List.foldl_nil]
  have h2 : edgeCross p ([a].getD 0 (0, 0)) ([a].getD ((0 + [a].length - 1) % [a].length) (0, 0)) =
      edgeCross p a a := rfl
  rw [h2]
  have h3 : edgeCross p a a = false := by
    unfold edgeCross
    rw [bne_self_eq_false, Bool.false_and]
  rw [h3]
  rfl

lemma edgeCross_symm (p a b : ℝ × ℝ) : edgeCross p a b = edgeCross p b a := by
  unfold edgeCross
  by_cases ha : a.2 > p.2 <;> by_cases hb : b.2 > p.2 <;> simp [ha, hb]
  · have hne : b.2 - a.2 ≠ 0 := by
      intro h
      exact hb (by linarith [sub_eq_zero.mp h])
    have hne2 : a.2 - b.2 ≠ 0 := by
      intro h
      exact hb (by linarith [sub_eq_zero.mp h])
    have heq : (b.1 - a.1) * (p.2 - a.2) / (b.2 - a.2) + a.1 =
        (a.1 - b.1) * (p.2 - b.2) / (a.2 - b.2) + b.1 := by
      field_simp
      ring
    rw [heq]
  · have hne : b.2 - a.2 ≠ 0 := by
      intro h
      exact ha (by linarith [sub_eq_zero.mp h])
    have hne2 : a.2 - b.2 ≠ 0 := by
      intro h
      exact ha (by linarith [sub_eq_zero.mp h])
    have heq : (b.1 - a.1) * (p.2 - a.2) / (b.2 - a.2) + a.1 =
        (a.1 - b.1) * (p.2 - b.2) / (a.2 - b.2) + b.1 := by
      field_simp
      ring
    rw [heq]

lemma insideEvenOdd_pair (p a b : ℝ × ℝ) : insideEvenOdd p [a, b] = false := by
  unfold insideEvenOdd
  have h1 : List.range [a, b].length = [0, 1] := rfl
  rw [h1]
  simp only [List.foldl_cons, List.foldl_nil]
  have h2 : edgeCross p ([a, b].getD 0 (0, 0))
      ([a, b].getD ((0 + [a, b].length - 1) % [a, b].length) (0, 0)) = edgeCross p a b := rfl
  have h3 : edgeCross p ([a, b].getD 1 (0, 0))
      ([a, b].getD ((1 + [a, b].length - 1) % [a, b].length) (0, 0)) = edgeCross p b a := by
    norm_num
  rw [h2, h3, edgeCross_symm p b a]
  cases edgeCross p a b <;> rfl

/-- C10.  For a polygon- or triangle-tagged shape with fewer than three
vertices the containment predicate is total and returns false: with 0 or
1 vertices no crossing is registered, and with 2 vertices the two
traversals of the same segment toggle the inside flag an even number of
times. -/
theorem isPointInShape_degenerate_polygon (p : ℝ × ℝ) (vs : List (ℝ × ℝ))
    (h : vs.length < 3) :
    isPointInShape p (Shape.polygon vs) = false ∧
    isPointInShape p (Shape.triangle vs) = false := by
  have key : insideEvenOdd p vs = false := by
    match vs, h with
    | [], _ => exact insideEvenOdd_nil p
    | [a], _ => exact insideEvenOdd_single p a
    | [a, b], _ => exact insideEvenOdd_pair p a b
  exact ⟨key, key⟩

/-- Witness for C10 at a concrete two-vertex polygon. -/
theorem isPointInShape_degenerate_polygon_witness :
    isPointInShape (0, 0) (Shape.polygon [(1, 1), (2, 2)]) = false ∧
    isPointInShape (0, 0) (Shape.triangle [(1, 1), (2, 2)]) = false :=
  isPointInShape_degenerate_polygon (0, 0) [(1, 1), (2, 2)] (by norm_num)

/-! ### Rectangle containment -/

/-- C4.  Rectangle containment holds exactly when the point translated
by minus the center and rotated by minus the rotation (via cos and sin of
the negated angle) lies within the half-width and half-height bounds,
both inclusive; in particular the unit-tests of the specification hold
and rotating by pi over 2 swaps the effective containment axes. -/
theorem isPointInShape_rectangle_spec :
    (∀ (p c : ℝ × ℝ) (w h : ℝ) (r : Option ℝ), 0 < w → 0 < h →
      (isPointInShape p (Shape.rectangle c w h r) = true ↔
        |(p.1 - c.1) * Real.cos (-(r.getD 0)) - (p.2 - c.2) * Real.sin (-(r.getD 0))| ≤ w / 2 ∧
        |(p.1 - c.1) * Real.sin (-(r.getD 0)) + (p.2 - c.2) * Real.cos (-(r.getD 0))| ≤ h / 2)) ∧
    isPointInShape (0.99, 0.49) (Shape.rectangle (0, 0) 2 1 (some 0)) = true ∧
    isPointInShape (1.01, 0) (Shape.rectangle (0, 0) 2 1 (some 0)) = false ∧
    (∀ p : ℝ × ℝ,
      isPointInShape p (Shape.rectangle (0, 0) 2 1 (some (Real.pi / 2))) = true ↔
        |p.2| ≤ 2 / 2 ∧ |p.1| ≤ 1 / 2) := by
  have h1 : ∀ (p c : ℝ × ℝ) (w h : ℝ) (r : Option ℝ),
      isPointInShape p (Shape.rectangle c w h r) = true ↔
        |(p.1 - c.1) * Real.cos (-(r.getD 0)) - (p.2 - c.2) * Real.sin (-(r.getD 0))| ≤ w / 2 ∧
        |(p.1 - c.1) * Real.sin (-(r.getD 0)) + (p.2 - c.2) * Real.cos (-(r.getD 0))| ≤ h / 2 := by
    intro p c w h r
    simp [isPointInShape, Bool.and_eq_true, decide_eq_true_eq]
  refine ⟨fun p c w h r _ _ => h1 p c w h r, ?_, ?_, ?_⟩
  · rw [h1]
    simp only [Option.getD_some, neg_zero, Real.cos_zero, Real.sin_zero]
    norm_num [abs_le]
  · rw [← Bool.not_eq_true, h1]
    simp only [Option.getD_some, neg_zero, Real.cos_zero, Real.sin_zero]
    norm_num [abs_le]
  · intro p
    rw [h1]
    simp only [Option.getD_some, Real.cos_neg, Real.sin_neg, Real.cos_pi_div_two,
      Real.sin_pi_div_two, sub_zero]
    constructor
    · rintro ⟨ha, hb⟩
      rw [show p.1 * 0 - p.2 * -1 = p.2 by ring] at ha
      rw [show p.1 * -1 + p.2 * 0 = -p.1 by ring, abs_neg] at hb
      exact ⟨ha, hb⟩
    · rintro ⟨ha, hb⟩
      rw [show p.1 * 0 - p.2 * -1 = p.2 by ring]
      rw [show p.1 * -1 + p.2 * 0 = -p.1 by ring, abs_neg]
      exact ⟨ha, hb⟩

/-- Witness for C4 at a concrete unrotated rectangle. -/
theorem isPointInShape_rectangle_spec_witness :
    (0 : ℝ) < 2 ∧ (0 : ℝ) < 1 ∧
    (isPointInShape (0.25, 0.25) (Shape.rectangle (0, 0) 2 1 none) = true ↔
      |((0.25 : ℝ) - 0) * Real.cos (-(Option.getD (none : Option ℝ) 0)) -
        ((0.25 : ℝ) - 0) * Real.sin (-(Option.getD (none : Option ℝ) 0))| ≤ 2 / 2 ∧
      |((0.25 : ℝ) - 0) * Real.sin (-(Option.getD (none : Option ℝ) 0)) +
        ((0.25 : ℝ) - 0) * Real.cos (-(Option.getD (none : Option ℝ) 0))| ≤ 1 / 2) :=
  ⟨by norm_num, by norm_num,
    isPointInShape_rectangle_spec.1 (0.25, 0.25) (0, 0) 2 1 none (by norm_num) (by norm_num)⟩

/-! ### Bounding-box refinement -/

/-- Lower grid-range bound: a cell whose center clears a lower world
bound has its x (or y) index at or above the floor-converted bound. -/
lemma floor_le_of_point_le (res ox a : ℝ) (hres : 0 < res) (g : ℤ)
    (h : a ≤ ox + ((g : ℝ) + 0.5) * res) : ⌊(a - ox) / res⌋ ≤ g := by
  have h2 : (a - ox) / res ≤ (g : ℝ) + 0.5 := by
    rw [div_le_iff hres]
    nlinarith
  have h3 : (⌊(a - ox) / res⌋ : ℝ) ≤ (g : ℝ) + 0.5 := le_trans (Int.floor_le _) h2
  have h4 : (⌊(a - ox) / res⌋ : ℝ) < ((g + 1 : ℤ) : ℝ) := by push_cast; linarith
  have h5 : ⌊(a - ox) / res⌋ < g + 1 := by exact_mod_cast h4
  omega

lemma le_floor_of_le_point (res ox b : ℝ) (hres : 0 < res) (g : ℤ)
    (h : ox + ((g : ℝ) + 0.5) * res ≤ b) : g ≤ ⌊(b - ox) / res⌋ := by
  apply Int.le_floor.mpr
  rw [le_div_iff hres]
  nlinarith

lemma circle_bracket (p center : ℝ × ℝ) (radius : ℝ)
    (hin : isPointInShape p (Shape.circle center radius) = true) :
    center.1 - radius ≤ p.1 ∧ p.1 ≤ center.1 + radius ∧
    center.2 - radius ≤ p.2 ∧ p.2 ≤ center.2 + radius := by
  have h : Real.sqrt ((p.1 - center.1) * (p.1 - center.1) +
      (p.2 - center.2) * (p.2 - center.2)) ≤ radius := by
    simpa [isPointInShape, decide_eq_true_eq] using hin
  have hx : |p.1 - center.1| ≤ radius := by
    refine le_trans ?_ h
    rw [← Real.sqrt_sq_eq_abs]
    apply Real.sqrt_le_sqrt
    nlinarith [sq_nonneg (p.2 - center.2)]
  have hy : |p.2 - center.2| ≤ radius := by
    refine le_trans ?_ h
    rw [← Real.sqrt_sq_eq_abs]
    apply Real.sqrt_le_sqrt
    nlinarith [sq_nonneg (p.1 - center.1)]
  rw [abs_le] at hx hy
  exact ⟨by linarith [hx.1], by linarith [hx.2], by linarith [hy.1], by linarith [hy.2]⟩

lemma corner_min_x (w h co si t : ℝ)
    (ht : -((w / 2) * |co| + (h / 2) * |si|) ≤ t) :
    min (min (min ((-w/2) * co - (-h/2) * si) ((w/2) * co - (-h/2) * si))
      ((w/2) * co - (h/2) * si)) ((-w/2) * co - (h/2) * si) ≤ t := by
  refine le_trans ?_ ht
  rcases le_total 0 co with hc | hc <;> rcases le_total 0 si with hs | hs
  · calc min (min (min ((-w/2) * co - (-h/2) * si) ((w/2) * co - (-h/2) * si))
        ((w/2) * co - (h/2) * si)) ((-w/2) * co - (h/2) * si)
        ≤ (-w/2) * co - (h/2) * si := min_le_right _ _
      _ = -((w / 2) * |co| + (h / 2) * |si|) := by
          rw [abs_of_nonneg hc, abs_of_nonneg hs]; try ring
  · calc min (min (min ((-w/2) * co - (-h/2) * si) ((w/2) * co - (-h/2) * si))
        ((w/2) * co - (h/2) * si)) ((-w/2) * co - (h/2) * si)
        ≤ (-w/2) * co - (-h/2) * si :=
          le_trans (min_le_left _ _) (le_trans (min_le_left _ _) (min_le_left _ _))
      _ = -((w / 2) * |co| + (h / 2) * |si|) := by
          rw [abs_of_nonneg hc, abs_of_nonpos hs]; try ring
  · calc min (min (min ((-w/2) * co - (-h/2) * si) ((w/2) * co - (-h/2) * si))
        ((w/2) * co - (h/2) * si)) ((-w/2) * co - (h/2) * si)
        ≤ (w/2) * co - (h/2) * si := le_trans (min_le_left _ _) (min_le_right _ _)
      _ = -((w / 2) * |co| + (h / 2) * |si|) := by
          rw [abs_of_nonpos hc, abs_of_nonneg hs]; try ring
  · calc min (min (min ((-w/2) * co - (-h/2) * si) ((w/2) * co - (-h/2) * si))
        ((w/2) * co - (h/2) * si)) ((-w/2) * co - (h/2) * si)
        ≤ (w/2) * co - (-h/2) * si :=
          le_trans (min_le_left _ _) (le_trans (min_le_left _ _) (min_le_right _ _))
      _ = -((w / 2) * |co| + (h / 2) * |si|) := by
          rw [abs_of_nonpos hc, abs_of_nonpos hs]; try ring

lemma corner_max_x (w h co si t : ℝ)
    (ht : t ≤ (w / 2) * |co| + (h / 2) * |si|) :
    t ≤ max (max (max ((-w/2) * co - (-h/2) * si) ((w/2) * co - (-h/2) * si))
      ((w/2) * co - (h/2) * si)) ((-w/2) * co - (h/2) * si) := by
  refine le_trans ht ?_
  rcases le_total 0 co with hc | hc <;> rcases le_total 0 si with hs | hs
  · calc (w / 2) * |co| + (h / 2) * |si| = (w/2) * co - (-h/2) * si := by
            rw [abs_of_nonneg hc, abs_of_nonneg hs]; try ring
      _ ≤ _ := le_trans (le_max_right _ _) (le_trans (le_max_left _ _) (le_max_left _ _))
  · calc (w / 2) * |co| + (h / 2) * |si| = (w/2) * co - (h/2) * si := by
            rw [abs_of_nonneg hc, abs_of_nonpos hs]; try ring
      _ ≤ _ := le_trans (le_max_right _ _) (le_max_left _ _)
  · calc (w / 2) * |co| + (h / 2) * |si| = (-w/2) * co - (-h/2) * si := by
            rw [abs_of_nonpos hc, abs_of_nonneg hs]; try ring
      _ ≤ _ := le_trans (le_max_left _ _) (le_trans (le_max_left _ _) (le_max_left _ _))
  · calc (w / 2) * |co| + (h / 2) * |si| = (-w/2) * co - (h/2) * si := by
            rw [abs_of_nonpos hc, abs_of_nonpos hs]; try ring
      _ ≤ _ := le_max_right _ _

lemma corner_min_y (w h co si t : ℝ)
    (ht : -((w / 2) * |si| + (h / 2) * |co|) ≤ t) :
    min (min (min ((-w/2) * si + (-h/2) * co) ((w/2) * si + (-h/2) * co))
      ((w/2) * si + (h/2) * co)) ((-w/2) * si + (h/2) * co) ≤ t := by
  refine le_trans ?_ ht
  rcases le_total 0 co with hc | hc <;> rcases le_total 0 si with hs | hs
  · calc min (min (min ((-w/2) * si + (-h/2) * co) ((w/2) * si + (-h/2) * co))
        ((w/2) * si + (h/2) * co)) ((-w/2) * si + (h/2) * co)
        ≤ (-w/2) * si + (-h/2) * co :=
          le_trans (min_le_left _ _) (le_trans (min_le_left _ _) (min_le_left _ _))
      _ = -((w / 2) * |si| + (h / 2) * |co|) := by
          rw [abs_of_nonneg hc, abs_of_nonneg hs]; try ring
  · calc min (min (min ((-w/2) * si + (-h/2) * co) ((w/2) * si + (-h/2) * co))
        ((w/2) * si + (h/2) * co)) ((-w/2) * si + (h/2) * co)
        ≤ (w/2) * si + (-h/2) * co :=
          le_trans (min_le_left _ _) (le_trans (min_le_left _ _) (min_le_right _ _))
      _ = -((w / 2) * |si| + (h / 2) * |co|) := by
          rw [abs_of_nonneg hc, abs_of_nonpos hs]; try ring
  · calc min (min (min ((-w/2) * si + (-h/2) * co) ((w/2) * si + (-h/2) * co))
        ((w/2) * si + (h/2) * co)) ((-w/2) * si + (h/2) * co)
        ≤ (-w/2) * si + (h/2) * co := min_le_right _ _
      _ = -((w / 2) * |si| + (h / 2) * |co|) := by
          rw [abs_of_nonpos hc, abs_of_nonneg hs]; try ring
  · calc min (min (min ((-w/2) * si + (-h/2) * co) ((w/2) * si + (-h/2) * co))
        ((w/2) * si + (h/2) * co)) ((-w/2) * si + (h/2) * co)
        ≤ (w/2) * si + (h/2) * co := le_trans (min_le_left _ _) (min_le_right _ _)
      _ = -((w / 2) * |si| + (h / 2) * |co|) := by
          rw [abs_of_nonpos hc, abs_of_nonpos hs]; try ring

lemma corner_max_y (w h co si t : ℝ)
    (ht : t ≤ (w / 2) * |si| + (h / 2) * |co|) :
    t ≤ max (max (max ((-w/2) * si + (-h/2) * co) ((w/2) * si + (-h/2) * co))
      ((w/2) * si + (h/2) * co)) ((-w/2) * si + (h/2) * co) := by
  refine le_trans ht ?_
  rcases le_total 0 co with hc | hc <;> rcases le_total 0 si with hs | hs
  · calc (w / 2) * |si| + (h / 2) * |co| = (w/2) * si + (h/2) * co := by
            rw [abs_of_nonneg hc, abs_of_nonneg hs]; try ring
      _ ≤ _ := le_trans (le_max_right _ _) (le_max_left _ _)
  · calc (w / 2) * |si| + (h / 2) * |co| = (-w/2) * si + (h/2) * co := by
            rw [abs_of_nonneg hc, abs_of_nonpos hs]; try ring
      _ ≤ _ := le_max_right _ _
  · calc (w / 2) * |si| + (h / 2) * |co| = (w/2) * si + (-h/2) * co := by
            rw [abs_of_nonpos hc, abs_of_nonneg hs]; try ring
      _ ≤ _ := le_trans (le_max_right _ _) (le_trans (le_max_left _ _) (le_max_left _ _))
  · calc (w / 2) * |si| + (h / 2) * |co| = (-w/2) * si + (-h/2) * co := by
            rw [abs_of_nonpos hc, abs_of_nonpos hs]; try ring
      _ ≤ _ := le_trans (le_max_left _ _) (le_trans (le_max_left _ _) (le_max_left _ _))

lemma rect_bracket_core (dx dy co si w h : ℝ)
    (hsum : co ^ 2 + si ^ 2 = 1)
    (hrx : |dx * co - dy * si| ≤ w / 2)
    (hry : |dx * si + dy * co| ≤ h / 2) :
    -((w / 2) * |co| + (h / 2) * |si|) ≤ dx ∧ dx ≤ (w / 2) * |co| + (h / 2) * |si| ∧
    -((w / 2) * |si| + (h / 2) * |co|) ≤ dy ∧ dy ≤ (w / 2) * |si| + (h / 2) * |co| := by
  have hdx : dx = (dx * co - dy * si) * co + (dx * si + dy * co) * si := by
    have h2 : (dx * co - dy * si) * co + (dx * si + dy * co) * si =
        dx * (co ^ 2 + si ^ 2) := by ring
    rw [h2, hsum, mul_one]
  have hdy : dy = -(dx * co - dy * si) * si + (dx * si + dy * co) * co := by
    have h2 : -(dx * co - dy * si) * si + (dx * si + dy * co) * co =
        dy * (co ^ 2 + si ^ 2) := by ring
    rw [h2, hsum, mul_one]
  have habsx : |dx| ≤ (w / 2) * |co| + (h / 2) * |si| := by
    rw [hdx]
    calc |(dx * co - dy * si) * co + (dx * si + dy * co) * si|
        ≤ |(dx * co - dy * si) * co| + |(dx * si + dy * co) * si| := abs_add _ _
      _ = |dx * co - dy * si| * |co| + |dx * si + dy * co| * |si| := by
          rw [abs_mul, abs_mul]
      _ ≤ (w / 2) * |co| + (h / 2) * |si| :=
          add_le_add (mul_le_mul_of_nonneg_right hrx (abs_nonneg co))
            (mul_le_mul_of_nonneg_right hry (abs_nonneg si))
  have habsy : |dy| ≤ (w / 2) * |si| + (h / 2) * |co| := by
    rw [hdy]
    calc |(-(dx * co - dy * si)) * si + (dx * si + dy * co) * co|
        ≤ |(-(dx * co - dy * si)) * si| + |(dx * si + dy * co) * co| := abs_add _ _
      _ = |dx * co - dy * si| * |si| + |dx * si + dy * co| * |co| := by
          rw [abs_mul, abs_mul, abs_neg]
      _ ≤ (w / 2) * |si| + (h / 2) * |co| :=
          add_le_add (mul_le_mul_of_nonneg_right hrx (abs_nonneg si))
            (mul_le_mul_of_nonneg_right hry (abs_nonneg co))
  rw [abs_le] at habsx habsy
  exact ⟨habsx.1, habsx.2, habsy.1, habsy.2⟩

lemma rect_bracket (p center : ℝ × ℝ) (w h : ℝ) (r : Option ℝ) (mnX mxX mnY mxY : ℝ)
    (hb : shapeBounds (Shape.rectangle center w h r) = some (mnX, mxX, mnY, mxY))
    (hin : isPointInShape p (Shape.rectangle center w h r) = true) :
    mnX ≤ p.1 ∧ p.1 ≤ mxX ∧ mnY ≤ p.2 ∧ p.2 ≤ mxY := by
  have hio : |(p.1 - center.1) * Real.cos (-(r.getD 0)) -
      (p.2 - center.2) * Real.sin (-(r.getD 0))| ≤ w / 2 ∧
      |(p.1 - center.1) * Real.sin (-(r.getD 0)) +
      (p.2 - center.2) * Real.cos (-(r.getD 0))| ≤ h / 2 := by
    simpa [isPointInShape, decide_eq_true_eq] using hin
  have hcore := rect_bracket_core (p.1 - center.1) (p.2 - center.2)
    (Real.cos (-(r.getD 0))) (Real.sin (-(r.getD 0))) w h
    (Real.cos_sq_add_sin_sq _) hio.1 hio.2
  simp only [shapeBounds] at hb
  rw [Option.some.injEq, Prod.mk.injEq, Prod.mk.injEq, Prod.mk.injEq] at hb
  obtain ⟨h1, h2, h3, h4⟩ := hb
  subst h1
  subst h2
  subst h3
  subst h4
  refine ⟨?_, ?_, ?_, ?_⟩
  · have := corner_min_x w h (Real.cos (-(r.getD 0))) (Real.sin (-(r.getD 0)))
      (p.1 - center.1) hcore.1
    linarith
  · have := corner_max_x w h (Real.cos (-(r.getD 0))) (Real.sin (-(r.getD 0)))
      (p.1 - center.1) hcore.2.1
    linarith
  · have := corner_min_y w h (Real.cos (-(r.getD 0))) (Real.sin (-(r.getD 0)))
      (p.2 - center.2) hcore.2.2.1
    linarith
  · have := corner_max_y w h (Real.cos (-(r.getD 0))) (Real.sin (-(r.getD 0)))
      (p.2 - center.2) hcore.2.2.2
    linarith

lemma shapeBounds_bracket (s : Shape) (p : ℝ × ℝ) (mnX mxX mnY mxY : ℝ)
    (hb : shapeBounds s = some (mnX, mxX, mnY, mxY))
    (hin : isPointInShape p s = true) :
    mnX ≤ p.1 ∧ p.1 ≤ mxX ∧ mnY ≤ p.2 ∧ p.2 ≤ mxY := by
  match s with
  | .circle center radius =>
      have hc := circle_bracket p center radius hin
      simp only [shapeBounds] at hb
      rw [Option.some.injEq, Prod.mk.injEq, Prod.mk.injEq, Prod.mk.injEq] at hb
      obtain ⟨h1, h2, h3, h4⟩ := hb
      subst h1
      subst h2
      subst h3
      subst h4
      exact hc
  | .rectangle center w h r =>
      exact rect_bracket p center w h r mnX mxX mnY mxY hb hin
  | .polygon vs =>
      match vs with
      | [] => simp [shapeBounds] at hb
      | v :: rest =>
          have hbr := insideEvenOdd_bracket p v rest
            (by simpa [isPointInShape] using hin)
          simp only [shapeBounds] at hb
          rw [Option.some.injEq, Prod.mk.injEq, Prod.mk.injEq, Prod.mk.injEq] at hb
          obtain ⟨h1, h2, h3, h4⟩ := hb
          subst h1
          subst h2
          subst h3
          subst h4
          exact hbr
  | .triangle vs =>
      match vs with
      | [] => simp [shapeBounds] at hb
      | v :: rest =>
          have hbr := insideEvenOdd_bracket p v rest
            (by simpa [isPointInShape] using hin)
          simp only [shapeBounds] at hb
          rw [Option.some.injEq, Prod.mk.injEq, Prod.mk.injEq, Prod.mk.injEq] at hb
          obtain ⟨h1, h2, h3, h4⟩ := hb
          subst h1
          subst h2
          subst h3
          subst h4
          exact hbr

lemma shapeBounds_isSome_of_inside (s : Shape) (p : ℝ × ℝ)
    (hin : isPointInShape p s = true) : ∃ b, shapeBounds s = some b := by
  match s with
  | .circle center radius => exact ⟨_, rfl⟩
  | .rectangle center w h r => exact ⟨_, rfl⟩
  | .polygon vs =>
      match vs with
      | [] =>
          have : isPointInShape p (Shape.polygon []) = false := by
            simp [isPointInShape, insideEvenOdd_nil]
          rw [this] at hin
          cases hin
      | v :: rest => exact ⟨_, rfl⟩
  | .triangle vs =>
      match vs with
      | [] =>
          have : isPointInShape p (Shape.triangle []) = false := by
            simp [isPointInShape, insideEvenOdd_nil]
          rw [this] at hin
          cases hin
      | v :: rest => exact ⟨_, rfl⟩

/-- C1.  At every valid cell, the grid produced by the bounding-box
restricted rasterization equals the reference full-scan grid written
from the specification: 0 exactly when some non-excluded object contains
the cell-center world point, 254 otherwise. -/
theorem generateGrid_refines_reference (mi : MapInfo) (objects : List MapObject)
    (hres : 0 < mi.resolution) (gx gy : ℤ)
    (hvalid : validCell (gridWidthOf mi) (gridHeightOf mi) gx gy) :
    generateGrid mi objects ((gy * gridWidthOf mi + gx).toNat) =
      referenceCellValue mi objects gx gy := by
  by_cases href : ∃ o ∈ objects, ¬ excludedType o.type ∧
      isPointInShape (cellCenter mi gx gy) o.shape = true
  · unfold referenceCellValue
    rw [if_pos href]
    apply (generateGrid_char mi objects _).1
    obtain ⟨o, ho, hexcl, hin⟩ := href
    obtain ⟨⟨mnX, mxX, mnY, mxY⟩, hb⟩ := shapeBounds_isSome_of_inside o.shape _ hin
    have hbr := shapeBounds_bracket o.shape _ mnX mxX mnY mxY hb hin
    refine ⟨o, ho, hexcl, mnX, mxX, mnY, mxY, hb, gy, ?_, gx, ?_, hin, hvalid, rfl⟩
    · rw [mem_intRange]
      constructor
      · exact floor_le_of_point_le mi.resolution mi.origin.2 mnY hres gy
          (by simpa [cellCenter] using hbr.2.2.1)
      · exact le_floor_of_le_point mi.resolution mi.origin.2 mxY hres gy
          (by simpa [cellCenter] using hbr.2.2.2)
    · rw [mem_intRange]
      constructor
      · exact floor_le_of_point_le mi.resolution mi.origin.1 mnX hres gx
          (by simpa [cellCenter] using hbr.1)
      · exact le_floor_of_le_point mi.resolution mi.origin.1 mxX hres gx
          (by simpa [cellCenter] using hbr.2.1)
  · unfold referenceCellValue
    rw [if_neg href]
    apply (generateGrid_char mi objects _).2
    rintro ⟨o, ho, hcond⟩
    obtain ⟨hexcl, mnX, mxX, mnY, mxY, hb, gy2, hgy2, gx2, hgx2, hin2, hvalid2, hidx⟩ := hcond
    have hij := flatIndex_inj hvalid2 hvalid hidx.symm
    apply href
    refine ⟨o, ho, hexcl, ?_⟩
    rw [← hij.1, ← hij.2]
    exact hin2

/-- Witness for C1 at a concrete map and cell. -/
theorem generateGrid_refines_reference_witness :
    generateGrid ⟨"m", 1, 1, 1, (0, 0)⟩ []
      ((0 * gridWidthOf ⟨"m", 1, 1, 1, (0, 0)⟩ + 0).toNat) =
      referenceCellValue ⟨"m", 1, 1, 1, (0, 0)⟩ [] 0 0 := by
  apply generateGrid_refines_reference ⟨"m", 1, 1, 1, (0, 0)⟩ [] (by norm_num) 0 0
  unfold gridWidthOf gridHeightOf
  norm_num
  decide
